import Mathlib

/-!
Shallow embedding of the battleshipy repository (battleship_game.py, server.py,
client.py) and proofs of the specification claims about it.

Coordinates are pairs of integers `(col, row)`; Python sets are modelled as
`Finset`, the insertion-ordered dict `ship_positions` as an association list,
and the mutable `BattleshipGame` object as a record threaded through pure
functions that return the updated state.  Character classification
(`str.isalpha` / `str.isdigit`) is modelled by the ASCII predicates
`Char.isAlpha` / `Char.isDigit`, and `int(...)` by a parser accepting an
optional sign followed by decimal digits.
-/

namespace Battleshipy

/-- A board coordinate `(col, row)` as computed by `process_shot`
(`col = ord(move[0].upper()) - ord('A')`, `row = int(move[1:])`); either
component may be negative for hostile inputs, hence `Int`. -/
abbrev Coord := Int × Int

/-- Embeds `self.board_size = 10` from `BattleshipGame.__init__`. -/
def boardSize : Nat := 10

/-- Embeds the `self.ships` dict from `BattleshipGame.__init__`:
the five ship names with their lengths, in insertion order. -/
def ships : List (String × Nat) :=
  [("Carrier", 5), ("Battleship", 4), ("Cruiser", 3), ("Submarine", 3), ("Destroyer", 2)]

/-- The ship names in catalog order. -/
def shipNames : List String := ships.map Prod.fst

/-- The mutable state of a `BattleshipGame` object: board grid, the
opponent's shots against us, our ship placements (insertion-ordered dict),
the set of our ships already sunk, and our own shots/hits bookkeeping. -/
structure Game where
  board : List (List Char)
  opponentShots : Finset Coord
  shipPositions : List (String × Finset Coord)
  sunkShips : Finset String
  shots : Finset Coord
  hits : Finset Coord
deriving DecidableEq

/-- Embeds `BattleshipGame.__init__`: empty 10x10 board, empty shot sets,
and the five ships of the fleet all unplaced. -/
def initGame : Game where
  board := List.replicate boardSize (List.replicate boardSize ' ')
  opponentShots := ∅
  shipPositions :=
    [("Carrier", ∅), ("Battleship", ∅), ("Cruiser", ∅), ("Submarine", ∅), ("Destroyer", ∅)]
  sunkShips := ∅
  shots := ∅
  hits := ∅

/-- Value of a list of decimal digit characters, most significant first. -/
def digitsToNat (l : List Char) : Nat :=
  l.foldl (fun acc c => 10 * acc + (c.toNat - 48)) 0

/-- Embeds Python `int(s)` on the relevant inputs: an optional sign followed
by a nonempty run of decimal digits parses to the signed value, anything
else raises `ValueError` (modelled as `none`). -/
def pyInt (l : List Char) : Option Int :=
  match l with
  | [] => none
  | c :: rest =>
    if c = '-' then
      if rest ≠ [] ∧ rest.all Char.isDigit then some (-(digitsToNat rest : Int)) else none
    else if c = '+' then
      if rest ≠ [] ∧ rest.all Char.isDigit then some ((digitsToNat rest : Int)) else none
    else if (c :: rest).all Char.isDigit then some ((digitsToNat (c :: rest) : Int)) else none

/-- Embeds the coordinate computation at the top of `process_shot`:
`col = ord(move[0].upper()) - ord('A')`, `row = int(move[1:])`.  Returns
`none` when the Python code would raise `IndexError` (empty string) or
`ValueError` (`move[1:]` is not an integer literal). -/
def parseMove (move : String) : Option Coord :=
  match move.data with
  | [] => none
  | c :: rest =>
    match pyInt rest with
    | none => none
    | some row => some (((c.toUpper.toNat : Int) - 65, row))

/-- Embeds `BattleshipGame.validate_move`:
`len(move) >= 2 and move[0].isalpha() and move[1:].isdigit()`. -/
def validateMove (move : String) : Bool :=
  match move.data with
  | [] => false
  | c :: rest => decide (rest.length ≥ 1) && c.isAlpha && rest.all Char.isDigit

/-- The in-bounds test of `process_shot`:
`0 <= col < self.board_size and 0 <= row < self.board_size`. -/
def InBoundsC (c : Coord) : Prop :=
  0 ≤ c.1 ∧ c.1 < (boardSize : Int) ∧ 0 ≤ c.2 ∧ c.2 < (boardSize : Int)

instance (c : Coord) : Decidable (InBoundsC c) := by
  unfold InBoundsC; infer_instance

/-- Writes character `ch` at `board[row][col]`, the effect of
`self.board[row][col] = ch`. -/
def setCell (b : List (List Char)) (row col : Nat) (ch : Char) : List (List Char) :=
  b.set row ((b.getD row []).set col ch)

/-- The free-form message returned by the `except` branch of `process_shot`. -/
def formatErrorMsg : String := "Invalid move format! Use letter + number (e.g. A5)"

/-- The six literal outcome tokens of the channel protocol. -/
def outcomeTokens : List String :=
  ["invalid", "repeat", "miss", "hit", "hit\nsunk", "gameover"]

/-- Embeds the loop of `BattleshipGame.check_ship_sunk`: scan the
insertion-ordered `ship_positions` entries; on the first ship containing
`hitPos`, not already sunk and with all coordinates shot, add it to the sunk
set and return the sink message, otherwise return the empty string. -/
def checkSunkLoop (shotsAgainst : Finset Coord) (hitPos : Coord) (sunk : Finset String) :
    List (String × Finset Coord) → String × Finset String
  | [] => ("", sunk)
  | (ship, positions) :: rest =>
    if hitPos ∈ positions ∧ ship ∉ sunk then
      if positions ⊆ shotsAgainst then ("Sunk " ++ ship ++ "!", insert ship sunk)
      else checkSunkLoop shotsAgainst hitPos sunk rest
    else checkSunkLoop shotsAgainst hitPos sunk rest

/-- Embeds `BattleshipGame.check_ship_sunk`, returning the sink message and
the updated `self.sunk_ships`. -/
def checkShipSunk (g : Game) (hitPos : Coord) : String × Finset String :=
  checkSunkLoop g.opponentShots hitPos g.sunkShips g.shipPositions

/-- Embeds the tail of the hit branch of `process_shot`: after marking the
board, call `check_ship_sunk`, then return `"gameover"` when every ship is
sunk, `"hit\nsunk"` when a sink message was produced, else `"hit"`. -/
def sunkCheckStep (g2 : Game) (col row : Int) : String × Game :=
  if (checkShipSunk g2 (col, row)).2.card = ships.length then
    ("gameover", { g2 with sunkShips := (checkShipSunk g2 (col, row)).2 })
  else if (checkShipSunk g2 (col, row)).1 ≠ "" then
    ("hit\nsunk", { g2 with sunkShips := (checkShipSunk g2 (col, row)).2 })
  else
    ("hit", { g2 with sunkShips := (checkShipSunk g2 (col, row)).2 })

/-- Embeds the body of `process_shot` after the shot has been added to
`self.opponent_shots`: the `for positions in self.ship_positions.values()`
hit scan, marking `'H'` and delegating to the sunk check on a hit, marking
`'M'` and returning `"miss"` otherwise. -/
def afterAdd (g1 : Game) (col row : Int) : String × Game :=
  if g1.shipPositions.any (fun sp => decide ((col, row) ∈ sp.2)) then
    sunkCheckStep { g1 with board := setCell g1.board row.toNat col.toNat 'H' } col row
  else
    ("miss", { g1 with board := setCell g1.board row.toNat col.toNat 'M' })

/-- Embeds `BattleshipGame.process_shot`: parse the move (the `except`
branch returns the free-form format message), reject out-of-bounds
coordinates as `"invalid"`, already-shot coordinates as `"repeat"`, then
record the shot and resolve hit/sink/miss. -/
def processShot (g : Game) (move : String) : String × Game :=
  match parseMove move with
  | none => (formatErrorMsg, g)
  | some (col, row) =>
    if ¬ InBoundsC (col, row) then ("invalid", g)
    else if (col, row) ∈ g.opponentShots then ("repeat", g)
    else afterAdd { g with opponentShots := insert (col, row) g.opponentShots } col row

/-- Python substring test `"hit" in s`, on the character list of `s`. -/
def hasHitChars : List Char → Bool
  | [] => false
  | c :: rest => (c == 'h' && rest.take 2 == ['i', 't']) || hasHitChars rest

/-- Python substring test `"hit" in result`. -/
def pyContainsHit (s : String) : Bool := hasHitChars s.data

/-- Embeds `BattleshipGame.handle_move_result`: on an empty, `"invalid"` or
`"repeat"` result, return immediately with the state untouched; otherwise
re-parse the move (`none` models the uncaught `IndexError`/`ValueError`),
record the shot, and record a hit when `"hit"` occurs in the result. -/
def handleMoveResult (g : Game) (move result : String) : Option Game :=
  if result = "" ∨ result = "invalid" ∨ result = "repeat" then some g
  else
    match parseMove move with
    | none => none
    | some (col, row) =>
      let g1 : Game := { g with shots := insert (col, row) g.shots }
      if pyContainsHit result then some { g1 with hits := insert (col, row) g1.hits }
      else some g1

/-- Embeds one own-turn step of the driver loops (client.py lines 52-69,
server.py lines 77-96): after sending a move and receiving `response`, a
`"repeat"`/`"invalid"` response triggers `continue` with `my_turn` still
true and no state change; otherwise `handle_move_result` runs, and
`"gameover"` breaks out of the loop.  Result: `(game, myTurn, ended)`,
`none` for an uncaught exception inside `handle_move_result`. -/
def ownTurnStep (g : Game) (move response : String) : Option (Game × Bool × Bool) :=
  if response = "repeat" then some (g, true, false)
  else if response = "invalid" then some (g, true, false)
  else
    match handleMoveResult g move response with
    | none => none
    | some g1 => if response = "gameover" then some (g1, true, true) else some (g1, false, false)

/-- Embeds the server's opponent-turn loop (server.py lines 53-66): `data`
is received once, then `while result == "repeat" or result == "invalid" or
result == ""` re-processes the same `data`, sending each result.  `fuel`
bounds the unrolling of the (potentially non-terminating) loop; the result
is `(game, outcomes sent so far, reached gameover)`. -/
def serverOpponentTurn (g : Game) (data : String) (sent : List String) :
    Nat → Game × List String × Bool
  | 0 => (g, sent, false)
  | fuel + 1 =>
    let r := processShot g data
    let sent1 := sent ++ [r.1]
    if r.1 = "gameover" then (r.2, sent1, true)
    else if r.1 = "repeat" ∨ r.1 = "invalid" ∨ r.1 = "" then
      serverOpponentTurn r.2 data sent1 fuel
    else (r.2, sent1, false)

/-- Embeds the client's opponent-turn loop (client.py lines 74-91): each
iteration receives a fresh move from `incoming`, processes it and sends the
result; a `"repeat"`/`"invalid"` result loops to receive another move.
Result: `(game, remaining incoming, outcomes sent, got a valid move)`. -/
def clientOpponentTurn (g : Game) (incoming sent : List String) :
    Nat → Game × List String × List String × Bool
  | 0 => (g, incoming, sent, false)
  | fuel + 1 =>
    match incoming with
    | [] => (g, [], sent, false)
    | data :: rest =>
      let r := processShot g data
      let sent1 := sent ++ [r.1]
      if r.1 = "repeat" ∨ r.1 = "invalid" then clientOpponentTurn r.2 rest sent1 fuel
      else (r.2, rest, sent1, true)

/-- Move-string encoding described by the spec round-trip property: the
column letter `chr(ord('A') + col)` followed by the decimal row digits. -/
def encodeMove (col row : Nat) : String :=
  String.mk [Char.ofNat (65 + col)] ++ toString row

/-- Embeds CPython's Unicode-aware `str.isdigit` on the Latin-1 repertoire
(U+0000 to U+00FF): besides the ASCII digits, exactly the superscripts two,
three and one (U+00B2, U+00B3, U+00B9) have Unicode `Numeric_Type=Digit`
and therefore satisfy `isdigit`; no other Latin-1 character does. -/
def pyIsDigit (c : Char) : Bool :=
  c.isDigit || c = '²' || c = '³' || c = '¹'

/-- Embeds CPython's Unicode-aware `str.isalpha` on the Latin-1 repertoire:
the ASCII letters together with `ª` (U+00AA), `µ` (U+00B5), `º` (U+00BA)
and the letters U+00C0 to U+00FF except the multiplication and division
signs U+00D7 and U+00F7. -/
def pyIsAlpha (c : Char) : Bool :=
  c.isAlpha || c = 'ª' || c = 'µ' || c = 'º' ||
    (0xC0 ≤ c.toNat && c.toNat ≤ 0xFF && c.toNat != 0xD7 && c.toNat != 0xF7)

/-- Embeds CPython's Unicode-aware `str.upper` on a single Latin-1
character, as the character list of the resulting string: `ß` (U+00DF)
uppercases to the two-character string `SS`, `µ` (U+00B5) to the Greek
capital Mu (U+039C), `ÿ` (U+00FF) to `Ÿ` (U+0178), the remaining lowercase
Latin-1 letters U+00E0 to U+00FE (excluding U+00F7) shift down by 0x20,
ASCII lowercase letters uppercase as usual, and every other Latin-1
character is unchanged. -/
def pyUpperChar (c : Char) : List Char :=
  if c = 'ß' then ['S', 'S']
  else if c = 'µ' then ['Μ']
  else if c = 'ÿ' then ['Ÿ']
  else if c.isLower then [c.toUpper]
  else if 0xE0 ≤ c.toNat && c.toNat ≤ 0xFE && c.toNat != 0xF7 then
    [Char.ofNat (c.toNat - 0x20)]
  else [c]

/-- Embeds `BattleshipGame.validate_move` with the Unicode-aware character
predicates (CPython semantics, exact on Latin-1 move strings). -/
def validateMovePy (move : String) : Bool :=
  match move.data with
  | [] => false
  | c :: rest => decide (rest.length ≥ 1) && pyIsAlpha c && rest.all pyIsDigit

/-- How the coordinate computation of `process_shot` terminates under
CPython Unicode semantics: `caught` is an `IndexError`/`ValueError`
(handled by the `except` clause), `typeError` is the `TypeError` raised by
`ord` on a multi-character `upper()` result, which the `except
(IndexError, ValueError)` clause does not catch. -/
inductive PyExc where
  | caught
  | typeError
deriving DecidableEq

/-- Embeds `col = ord(move[0].upper()) - ord('A')`, `row = int(move[1:])`
with CPython Unicode semantics on Latin-1 move strings: `move[0].upper()`
may expand to two characters (`'ß'.upper() = 'SS'`), in which case `ord`
raises an uncaught `TypeError` (and `int` is never reached); `int` accepts
as digits only characters of Unicode category `Nd` — within Latin-1
exactly the ASCII digits — so a superscript digit raises `ValueError` even
though it satisfies `isdigit`. -/
def parseMovePy (move : String) : Except PyExc Coord :=
  match move.data with
  | [] => Except.error PyExc.caught
  | c :: rest =>
    match pyUpperChar c with
    | [u] =>
      match pyInt rest with
      | none => Except.error PyExc.caught
      | some row => Except.ok (((u.toNat : Int) - 65, row))
    | _ => Except.error PyExc.typeError

/-- Embeds `BattleshipGame.process_shot` with the Unicode-aware coordinate
computation: `none` models the uncaught `TypeError` escaping
`process_shot`; after a successful parse the behaviour is the body of
`processShot`. -/
def processShotPy (g : Game) (move : String) : Option (String × Game) :=
  match parseMovePy move with
  | Except.error PyExc.typeError => none
  | Except.error PyExc.caught => some (formatErrorMsg, g)
  | Except.ok (col, row) =>
    some (if ¬ InBoundsC (col, row) then ("invalid", g)
      else if (col, row) ∈ g.opponentShots then ("repeat", g)
      else afterAdd { g with opponentShots := insert (col, row) g.opponentShots } col row)

/-- Deterministic model of the `random` module: an infinite stream of raw
draws together with a cursor.  Each call to `randint`/`choice` consumes one
draw. -/
structure RS where
  src : Nat → Nat
  idx : Nat

/-- Embeds `random.randint(a, b)` (both endpoints inclusive): clamp the next
raw draw into `[a, b]`. -/
def randint (a b : Nat) (r : RS) : Nat × RS :=
  (a + r.src r.idx % (b - a + 1), ⟨r.src, r.idx + 1⟩)

/-- Embeds `random.choice([True, False])`. -/
def choiceBool (r : RS) : Bool × RS :=
  (r.src r.idx % 2 == 0, ⟨r.src, r.idx + 1⟩)

/-- The horizontal candidate `[(x + i, y) for i in range(size)]`. -/
def candidateH (x y size : Nat) : List Coord :=
  (List.range size).map fun i => (((x + i : Nat) : Int), ((y : Nat) : Int))

/-- The vertical candidate `[(x, y + i) for i in range(size)]`. -/
def candidateV (x y size : Nat) : List Coord :=
  (List.range size).map fun i => (((x : Nat) : Int), ((y + i : Nat) : Int))

/-- The membership test against the flattened list of all claimed
coordinates, `pos in [p for ship_pos in self.ship_positions.values() for p
in ship_pos]`: true iff some placed piece already claims `p`. -/
def occupied (g : Game) (p : Coord) : Bool :=
  g.shipPositions.any fun sp => decide (p ∈ sp.2)

/-- Embeds the `while attempts < 100` retry loop of `place_ships_randomly`
for one ship: pick an orientation and an in-bounds anchor at random, accept
the candidate when it intersects no already-claimed coordinate, otherwise
retry with one fewer attempt left; `none` after the attempt budget is
exhausted. -/
def tryPlace (size : Nat) (occ : Coord → Bool) : Nat → RS → Option (List Coord) × RS
  | 0, r => (none, r)
  | fuel + 1, r =>
    let c := choiceBool r
    let pr :=
      if c.1 then
        let xr := randint 0 (boardSize - size) c.2
        let yr := randint 0 (boardSize - 1) xr.2
        (candidateH xr.1 yr.1 size, yr.2)
      else
        let xr := randint 0 (boardSize - 1) c.2
        let yr := randint 0 (boardSize - size) xr.2
        (candidateV xr.1 yr.1 size, yr.2)
    if pr.1.all (fun p => !(occ p)) then (some pr.1, pr.2)
    else tryPlace size occ fuel pr.2

/-- Adds every coordinate of `ps` to the dict entry of `ship`
(`self.ship_positions[ship].add(pos)` for each accepted `pos`). -/
def addPositions (l : List (String × Finset Coord)) (ship : String) (ps : List Coord) :
    List (String × Finset Coord) :=
  l.map fun sp => if sp.1 = ship then (sp.1, sp.2 ∪ ps.toFinset) else sp

/-- Marks every accepted coordinate on the board
(`self.board[pos[1]][pos[0]] = 'S'`). -/
def markShip (b : List (List Char)) (ps : List Coord) : List (List Char) :=
  ps.foldl (fun acc p => setCell acc p.2.toNat p.1.toNat 'S') b

/-- One iteration of the `for ship, size in self.ships.items()` loop of
`place_ships_randomly`: on success record the placement, on exhaustion of
the 100 attempts leave the ship silently unplaced. -/
def placeShip (g : Game) (ship : String) (size : Nat) (r : RS) : Game × RS :=
  match tryPlace size (occupied g) 100 r with
  | (none, r1) => (g, r1)
  | (some ps, r1) =>
    ({ g with
        board := markShip g.board ps,
        shipPositions := addPositions g.shipPositions ship ps }, r1)

/-- Embeds `BattleshipGame.place_ships_randomly`. -/
def placeShipsRandomly (g : Game) (r : RS) : Game × RS :=
  ships.foldl (fun gr s => placeShip gr.1 s.1 s.2 gr.2) (g, r)

/-- A placed piece of length `size`: a horizontal or vertical contiguous
run of `size` cells that stays inside the 10x10 board. -/
def ShipShape (s : Finset Coord) (size : Nat) : Prop :=
  ∃ x y : Nat,
    (x + size ≤ 10 ∧ y < 10 ∧ s = (candidateH x y size).toFinset) ∨
    (x < 10 ∧ y + size ≤ 10 ∧ s = (candidateV x y size).toFinset)

/-- A random stream under which every ship is placed on its first attempt:
all horizontal, anchored at column 0, on rows 0,1,2,3,4 respectively. -/
def wStream : Nat → Nat := fun n =>
  [0, 0, 0, 0, 0, 1, 0, 0, 2, 0, 0, 3, 0, 0, 4].getD n 0

/-- Well-formedness of a game whose five ships have all been placed (the
hypothesis of the sinking claims): the dict holds exactly the catalog names
in order, every placed coordinate is in bounds, distinct pieces never share
a coordinate, the sunk set only holds catalog names, and a ship is in the
sunk set exactly when all of its coordinates have been shot. -/
def FleetPlaced (g : Game) : Prop :=
  g.shipPositions.map Prod.fst = shipNames ∧
  (∀ sp ∈ g.shipPositions, ∀ c ∈ sp.2, InBoundsC c) ∧
  (∀ sp ∈ g.shipPositions, ∀ sq ∈ g.shipPositions, sp ≠ sq → ∀ c ∈ sp.2, c ∉ sq.2) ∧
  g.sunkShips ⊆ shipNames.toFinset ∧
  (∀ sp ∈ g.shipPositions, (sp.1 ∈ g.sunkShips ↔ sp.2 ⊆ g.opponentShots))

instance (g : Game) : Decidable (FleetPlaced g) := by
  unfold FleetPlaced; infer_instance

/-- A concrete fully-placed game used to witness the sinking claims: the
five ships lie horizontally from column 0 on rows 0 to 4; every coordinate
of the first four ships has been shot (they are sunk), and the Destroyer at
`(0,4),(1,4)` has been hit once at `(0,4)`. -/
def gAlmostWon : Game :=
  { initGame with
    shipPositions :=
      [("Carrier", {((0 : Int), (0 : Int)), (1, 0), (2, 0), (3, 0), (4, 0)}),
       ("Battleship", {((0 : Int), (1 : Int)), (1, 1), (2, 1), (3, 1)}),
       ("Cruiser", {((0 : Int), (2 : Int)), (1, 2), (2, 2)}),
       ("Submarine", {((0 : Int), (3 : Int)), (1, 3), (2, 3)}),
       ("Destroyer", {((0 : Int), (4 : Int)), (1, 4)})],
    opponentShots :=
      {((0 : Int), (0 : Int)), (1, 0), (2, 0), (3, 0), (4, 0),
       ((0 : Int), (1 : Int)), (1, 1), (2, 1), (3, 1),
       ((0 : Int), (2 : Int)), (1, 2), (2, 2),
       ((0 : Int), (3 : Int)), (1, 3), (2, 3),
       ((0 : Int), (4 : Int))},
    sunkShips := {"Carrier", "Battleship", "Cruiser", "Submarine"} }

/-! ### Claims C3, C5, C6: error handling of `process_shot` -/

/-- C3: the move string `"A"` fails format validation (its remainder is
empty), yet `process_shot` returns the free-form exception message — which
is not one of the six literal outcome tokens — instead of the `"invalid"`
token that the claim requires. -/
theorem c3_format_error_returns_nontoken_message :
    validateMove "A" = false ∧
    (processShot initGame "A").1 = formatErrorMsg ∧
    formatErrorMsg ∉ outcomeTokens := by
  decide

/-- C5: for every move that parses to a coordinate outside
`[0,10) × [0,10)`, `process_shot` returns `"invalid"` and leaves the whole
game state — in particular `opponent_shots`, the board and `sunk_ships` —
unchanged. -/
theorem c5_out_of_bounds_invalid_no_mutation
    (g : Game) (move : String) (col row : Int)
    (hp : parseMove move = some (col, row))
    (hb : ¬ InBoundsC (col, row)) :
    processShot g move = ("invalid", g) := by
  simp [processShot, hp, hb]

theorem c5_out_of_bounds_invalid_no_mutation_witness :
    parseMove "Z5" = some (25, 5) ∧ ¬ InBoundsC (25, 5) ∧
    processShot initGame "Z5" = ("invalid", initGame) :=
  ⟨by decide, by decide,
    c5_out_of_bounds_invalid_no_mutation initGame "Z5" 25 5 (by decide) (by decide)⟩

/-- C6: for every move that parses to an in-bounds coordinate already in
`opponent_shots`, `process_shot` returns `"repeat"` and leaves the entire
game state unchanged, so repeating a shot is idempotent. -/
theorem c6_repeat_shot_idempotent
    (g : Game) (move : String) (col row : Int)
    (hp : parseMove move = some (col, row))
    (hb : InBoundsC (col, row))
    (hmem : (col, row) ∈ g.opponentShots) :
    processShot g move = ("repeat", g) := by
  simp [processShot, hp, hb, hmem]

theorem c6_repeat_shot_idempotent_witness :
    parseMove "A0" = some (0, 0) ∧ InBoundsC (0, 0) ∧
    (0, 0) ∈ ({ initGame with opponentShots := {((0 : Int), (0 : Int))} } : Game).opponentShots ∧
    processShot { initGame with opponentShots := {((0 : Int), (0 : Int))} } "A0" =
      ("repeat", { initGame with opponentShots := {((0 : Int), (0 : Int))} }) :=
  ⟨by decide, by decide, by decide,
    c6_repeat_shot_idempotent { initGame with opponentShots := {((0 : Int), (0 : Int))} }
      "A0" 0 0 (by decide) (by decide) (by decide)⟩

/-! ### Claim C2: the opponent-turn protocol loops -/

/-- C2: on an out-of-bounds move `"Z9"`, the server's opponent-turn loop
re-processes the same buffered move without receiving another one, sending
an `"invalid"` outcome on every iteration — two outcomes already after two
iterations for a single received shot, with no progress — whereas the
client's loop receives a fresh move each iteration and sends exactly one
outcome per received move. -/
theorem c2_server_reprocesses_same_move_without_recv :
    serverOpponentTurn initGame "Z9" [] 2 = (initGame, ["invalid", "invalid"], false) ∧
    clientOpponentTurn initGame ["Z9", "A0"] [] 2 =
      ({ initGame with
          opponentShots := {((0 : Int), (0 : Int))},
          board := setCell initGame.board 0 0 'M' }, [], ["invalid", "miss"], true) := by
  decide

/-! ### Claim C8: frame condition of `handle_move_result` on `invalid`/`repeat` -/

/-- C8: when the outcome that comes back for the peer's own move is
`"invalid"` or `"repeat"`, `handle_move_result` returns the state completely
unchanged (no shot, hit, board, `opponent_shots` or `sunk_ships` update),
and the own-turn driver step keeps `my_turn` true and does not end the
game, i.e. it retries the own move. -/
theorem c8_invalid_repeat_leaves_attacker_state
    (g : Game) (move result : String)
    (h : result = "invalid" ∨ result = "repeat") :
    handleMoveResult g move result = some g ∧
    ownTurnStep g move result = some (g, true, false) := by
  rcases h with h | h <;> subst h <;>
    simp [handleMoveResult, ownTurnStep]

theorem c8_invalid_repeat_leaves_attacker_state_witness :
    (("invalid" : String) = "invalid" ∨ ("invalid" : String) = "repeat") ∧
    handleMoveResult initGame "A5" "invalid" = some initGame ∧
    ownTurnStep initGame "A5" "invalid" = some (initGame, true, false) :=
  ⟨Or.inl rfl,
    (c8_invalid_repeat_leaves_attacker_state initGame "A5" "invalid" (Or.inl rfl)).1,
    (c8_invalid_repeat_leaves_attacker_state initGame "A5" "invalid" (Or.inl rfl)).2⟩

/-! ### Claim C9: move-string round trip -/

/-- C9: for every in-bounds coordinate, encoding it as column letter plus
decimal row digits and parsing the string back through the coordinate
computation of `process_shot` recovers the same coordinate. -/
theorem c9_encode_parse_roundtrip (col row : Nat) (h1 : col < 10) (h2 : row < 10) :
    parseMove (encodeMove col row) = some ((col : Int), (row : Int)) := by
  have H : ∀ c < 10, ∀ r < 10,
      parseMove (encodeMove c r) = some ((c : Int), (r : Int)) := by decide
  exact H col h1 row h2

theorem c9_encode_parse_roundtrip_witness :
    3 < 10 ∧ 7 < 10 ∧ parseMove (encodeMove 3 7) = some ((3 : Int), (7 : Int)) :=
  ⟨by decide, by decide, c9_encode_parse_roundtrip 3 7 (by decide) (by decide)⟩

/-! ### Claim C10: validated moves never reach the exception branch -/

lemma sunkCheckStep_fst_mem (g2 : Game) (col row : Int) :
    (sunkCheckStep g2 col row).1 ∈ outcomeTokens := by
  unfold sunkCheckStep
  by_cases h1 : (checkShipSunk g2 (col, row)).2.card = ships.length
  · simp [h1, outcomeTokens]
  · by_cases h2 : (checkShipSunk g2 (col, row)).1 ≠ "" <;> simp [h1, h2, outcomeTokens]

lemma afterAdd_fst_mem (g1 : Game) (col row : Int) :
    (afterAdd g1 col row).1 ∈ outcomeTokens := by
  unfold afterAdd
  by_cases h : g1.shipPositions.any (fun sp => decide ((col, row) ∈ sp.2))
  · simpa [h] using sunkCheckStep_fst_mem
      { g1 with board := setCell g1.board row.toNat col.toNat 'H' } col row
  · simp [h, outcomeTokens]

lemma processShot_fst_mem_of_parse (g : Game) (move : String) (col row : Int)
    (hp : parseMove move = some (col, row)) :
    (processShot g move).1 ∈ outcomeTokens := by
  simp only [processShot, hp]
  by_cases hb : InBoundsC (col, row)
  · by_cases hm : (col, row) ∈ g.opponentShots
    · simp [hb, hm, outcomeTokens]
    · simpa [hb, hm] using afterAdd_fst_mem
        { g with opponentShots := insert (col, row) g.opponentShots } col row
  · simp [hb, outcomeTokens]

/-- C10: under CPython's Unicode semantics `validate_move` accepts the
move `"A²"` — the superscript two satisfies `str.isdigit` — yet `int('²')`
raises `ValueError`, so `process_shot` does reach its exception branch and
returns the free-form format message, which is not an outcome token; the
validated move `"ß5"` is worse: `'ß'.upper() = 'SS'` makes `ord` raise a
`TypeError` that the `except (IndexError, ValueError)` clause does not
catch, crashing `process_shot`.  The claim that validated moves never
reach the exception branch is therefore false of the program. -/
theorem c10_unicode_validated_move_reaches_exception :
    validateMovePy "A²" = true ∧
    processShotPy initGame "A²" = some (formatErrorMsg, initGame) ∧
    formatErrorMsg ∉ outcomeTokens ∧
    validateMovePy "ß5" = true ∧
    processShotPy initGame "ß5" = none := by
  decide

/-! ### Claim C4: exhausted placement budget is silently dropped -/

set_option maxRecDepth 10000 in
/-- C4: under a random stream that proposes the same cells on every
attempt, the Carrier is placed and every other ship exhausts its 100
attempts; `place_ships_randomly` then returns normally with those ships
left unplaced (empty coordinate sets) — there is no `PlacementFailed`
signal and game setup is not aborted, contradicting the claim. -/
theorem c4_exhausted_placement_silently_drops_ship :
    (placeShipsRandomly initGame ⟨fun _ => 0, 0⟩).1.shipPositions =
      [("Carrier", ({((0 : Int), (0 : Int)), (1, 0), (2, 0), (3, 0), (4, 0)} : Finset Coord)),
       ("Battleship", ∅), ("Cruiser", ∅), ("Submarine", ∅), ("Destroyer", ∅)] := by
  decide

/-! ### Claim C7: invariants of a successful random placement -/

lemma candidateH_nodup (x y size : Nat) : (candidateH x y size).Nodup := by
  refine List.Nodup.map ?_ (List.nodup_range size)
  intro i j hij
  have h1 : ((x + i : Nat) : Int) = ((x + j : Nat) : Int) := congrArg Prod.fst hij
  have h2 : x + i = x + j := by exact_mod_cast h1
  omega

lemma candidateV_nodup (x y size : Nat) : (candidateV x y size).Nodup := by
  refine List.Nodup.map ?_ (List.nodup_range size)
  intro i j hij
  have h1 : ((y + i : Nat) : Int) = ((y + j : Nat) : Int) := congrArg Prod.snd hij
  have h2 : y + i = y + j := by exact_mod_cast h1
  omega

lemma candidateH_length (x y size : Nat) : (candidateH x y size).length = size := by
  simp [candidateH]

lemma candidateV_length (x y size : Nat) : (candidateV x y size).length = size := by
  simp [candidateV]

lemma candidateH_inbounds (x y size : Nat) (h1 : x + size ≤ 10) (h2 : y < 10) :
    ∀ p ∈ candidateH x y size, InBoundsC p := by
  intro p hp
  simp only [candidateH, List.mem_map, List.mem_range] at hp
  obtain ⟨i, hi, rfl⟩ := hp
  refine ⟨by positivity, ?_, by positivity, ?_⟩
  · show ((x + i : Nat) : Int) < (boardSize : Int)
    have : x + i < 10 := by omega
    simp only [boardSize]; exact_mod_cast this
  · show ((y : Nat) : Int) < (boardSize : Int)
    simp only [boardSize]; exact_mod_cast h2

lemma candidateV_inbounds (x y size : Nat) (h1 : x < 10) (h2 : y + size ≤ 10) :
    ∀ p ∈ candidateV x y size, InBoundsC p := by
  intro p hp
  simp only [candidateV, List.mem_map, List.mem_range] at hp
  obtain ⟨i, hi, rfl⟩ := hp
  refine ⟨by positivity, ?_, by positivity, ?_⟩
  · show ((x : Nat) : Int) < (boardSize : Int)
    simp only [boardSize]; exact_mod_cast h1
  · show ((y + i : Nat) : Int) < (boardSize : Int)
    have : y + i < 10 := by omega
    simp only [boardSize]; exact_mod_cast this

lemma ShipShape_card {s : Finset Coord} {size : Nat} (h : ShipShape s size) :
    s.card = size := by
  obtain ⟨x, y, h | h⟩ := h
  · rw [h.2.2, List.toFinset_card_of_nodup (candidateH_nodup x y size), candidateH_length]
  · rw [h.2.2, List.toFinset_card_of_nodup (candidateV_nodup x y size), candidateV_length]

lemma ShipShape_inbounds {s : Finset Coord} {size : Nat} (h : ShipShape s size) :
    ∀ c ∈ s, InBoundsC c := by
  obtain ⟨x, y, h | h⟩ := h
  · intro c hc
    rw [h.2.2] at hc
    exact candidateH_inbounds x y size h.1 h.2.1 c (List.mem_toFinset.mp hc)
  · intro c hc
    rw [h.2.2] at hc
    exact candidateV_inbounds x y size h.1 h.2.1 c (List.mem_toFinset.mp hc)

lemma tryPlace_some_spec (size : Nat) (occ : Coord → Bool) (hsize : size ≤ 10) :
    ∀ fuel r ps r1, tryPlace size occ fuel r = (some ps, r1) →
      (∃ x y : Nat,
        (x + size ≤ 10 ∧ y < 10 ∧ ps = candidateH x y size) ∨
        (x < 10 ∧ y + size ≤ 10 ∧ ps = candidateV x y size)) ∧
      ∀ p ∈ ps, occ p = false := by
  intro fuel
  induction fuel with
  | zero =>
    intro r ps r1 h
    simp [tryPlace] at h
  | succ fuel ih =>
    intro r ps r1 h
    simp only [tryPlace] at h
    by_cases hc : (choiceBool r).1
    all_goals simp only [hc, if_true, if_false, Bool.false_eq_true] at h
    · by_cases hacc :
        (candidateH (randint 0 (boardSize - size) (choiceBool r).2).1
          (randint 0 (boardSize - 1) (randint 0 (boardSize - size) (choiceBool r).2).2).1
          size).all (fun p => !(occ p))
      · rw [if_pos hacc] at h
        obtain ⟨hps, _⟩ := Prod.mk.injEq _ _ _ _ ▸ h
        injection hps with hps
        subst hps
        constructor
        · refine ⟨(randint 0 (boardSize - size) (choiceBool r).2).1,
            (randint 0 (boardSize - 1) (randint 0 (boardSize - size) (choiceBool r).2).2).1,
            Or.inl ⟨?_, ?_, rfl⟩⟩
          · show 0 + _ % (boardSize - size - 0 + 1) + size ≤ 10
            have := Nat.mod_lt ((choiceBool r).2.src (choiceBool r).2.idx)
              (y := boardSize - size - 0 + 1) (by omega)
            simp only [boardSize] at *
            omega
          · show 0 + _ % (boardSize - 1 - 0 + 1) < 10
            have := Nat.mod_lt
              ((randint 0 (boardSize - size) (choiceBool r).2).2.src
                (randint 0 (boardSize - size) (choiceBool r).2).2.idx)
              (y := boardSize - 1 - 0 + 1) (by simp [boardSize])
            simp only [boardSize] at *
            omega
        · intro p hp
          have := List.all_eq_true.mp hacc p hp
          simpa using this
      · rw [if_neg hacc] at h
        exact ih _ _ _ h
    · by_cases hacc :
        (candidateV (randint 0 (boardSize - 1) (choiceBool r).2).1
          (randint 0 (boardSize - size) (randint 0 (boardSize - 1) (choiceBool r).2).2).1
          size).all (fun p => !(occ p))
      · rw [if_pos hacc] at h
        obtain ⟨hps, _⟩ := Prod.mk.injEq _ _ _ _ ▸ h
        injection hps with hps
        subst hps
        constructor
        · refine ⟨(randint 0 (boardSize - 1) (choiceBool r).2).1,
            (randint 0 (boardSize - size) (randint 0 (boardSize - 1) (choiceBool r).2).2).1,
            Or.inr ⟨?_, ?_, rfl⟩⟩
          · show 0 + _ % (boardSize - 1 - 0 + 1) < 10
            have := Nat.mod_lt ((choiceBool r).2.src (choiceBool r).2.idx)
              (y := boardSize - 1 - 0 + 1) (by simp [boardSize])
            simp only [boardSize] at *
            omega
          · show 0 + _ % (boardSize - size - 0 + 1) + size ≤ 10
            have := Nat.mod_lt
              ((randint 0 (boardSize - 1) (choiceBool r).2).2.src
                (randint 0 (boardSize - 1) (choiceBool r).2).2.idx)
              (y := boardSize - size - 0 + 1) (by omega)
            simp only [boardSize] at *
            omega
        · intro p hp
          have := List.all_eq_true.mp hacc p hp
          simpa using this
      · rw [if_neg hacc] at h
        exact ih _ _ _ h

/-- Pieces are either still unplaced or a properly shaped ship of some
catalog length. -/
def PiecesGood (l : List (String × Finset Coord)) : Prop :=
  ∀ sp ∈ l, sp.2 = ∅ ∨ ∃ sz, (sp.1, sz) ∈ ships ∧ ShipShape sp.2 sz

/-- Distinct pieces occupy pairwise disjoint coordinate sets. -/
def PiecesDisjoint (l : List (String × Finset Coord)) : Prop :=
  List.Pairwise (fun a b => Disjoint a.2 b.2) l

lemma addPositions_map_fst (l : List (String × Finset Coord)) (ship : String)
    (ps : List Coord) : (addPositions l ship ps).map Prod.fst = l.map Prod.fst := by
  induction l with
  | nil => rfl
  | cons a t ih =>
    simp only [addPositions, List.map_cons] at ih ⊢
    rw [ih]
    by_cases h : a.1 = ship <;> simp [h]

lemma mem_addPositions {l : List (String × Finset Coord)} {ship : String}
    {ps : List Coord} {sq : String × Finset Coord} (h : sq ∈ addPositions l ship ps) :
    ∃ sp ∈ l, sq = if sp.1 = ship then (sp.1, sp.2 ∪ ps.toFinset) else sp := by
  obtain ⟨sp, hsp, rfl⟩ := List.mem_map.mp h
  exact ⟨sp, hsp, rfl⟩

lemma pairwise_addPositions {l : List (String × Finset Coord)} {ship : String}
    {ps : List Coord}
    (hd : PiecesDisjoint l)
    (hfree : ∀ sp ∈ l, ∀ p ∈ ps, p ∉ sp.2)
    (hnd : (l.map Prod.fst).Nodup) :
    PiecesDisjoint (addPositions l ship ps) := by
  induction l with
  | nil => exact List.Pairwise.nil
  | cons a t ih =>
    rw [PiecesDisjoint, addPositions, List.map_cons, List.pairwise_cons]
    rw [PiecesDisjoint] at hd
    rw [List.pairwise_cons] at hd
    rw [List.map_cons, List.nodup_cons] at hnd
    constructor
    · intro b' hb'
      obtain ⟨b, hb, rfl⟩ := List.mem_map.mp hb'
      have hab : Disjoint a.2 b.2 := hd.1 b hb
      have hpsa : Disjoint (ps.toFinset : Finset Coord) a.2 := by
        rw [Finset.disjoint_left]
        intro p hp
        exact hfree a (List.mem_cons_self a t) p (List.mem_toFinset.mp hp)
      have hpsb : Disjoint (ps.toFinset : Finset Coord) b.2 := by
        rw [Finset.disjoint_left]
        intro p hp
        exact hfree b (List.mem_cons_of_mem a hb) p (List.mem_toFinset.mp hp)
      by_cases ha : a.1 = ship
      · have hbn : ¬ (b.1 = ship) := by
          intro hbs
          exact hnd.1 (by rw [ha, ← hbs]; exact List.mem_map_of_mem Prod.fst hb)
        simp only [ha, if_true, hbn, if_false]
        exact Finset.disjoint_union_left.mpr ⟨hab, hpsb⟩
      · by_cases hb2 : b.1 = ship
        · simp only [ha, if_false, hb2, if_true]
          exact Finset.disjoint_union_right.mpr ⟨hab, hpsa.symm⟩
        · simp only [ha, if_false, hb2]
          exact hab
    · exact ih hd.2 (fun sp hsp => hfree sp (List.mem_cons_of_mem a hsp)) hnd.2

lemma occupied_false_not_mem {g : Game} {p : Coord} (h : occupied g p = false) :
    ∀ sp ∈ g.shipPositions, p ∉ sp.2 := by
  intro sp hsp hmem
  have : occupied g p = true := by
    simp only [occupied, List.any_eq_true]
    exact ⟨sp, hsp, by simpa using hmem⟩
  rw [h] at this
  cases this

lemma ships_size_le_ten {ship : String} {size : Nat} (h : (ship, size) ∈ ships) :
    size ≤ 10 := by
  fin_cases h <;> decide

/-- One step of the placement fold preserves the invariants: catalog names
unchanged, all placed pieces well-shaped and pairwise disjoint, and entries
of other ships untouched. -/
lemma placeShip_step (g : Game) (ship : String) (size : Nat) (r : RS)
    (hcat : (ship, size) ∈ ships)
    (hempty : ∀ sp ∈ g.shipPositions, sp.1 = ship → sp.2 = ∅)
    (hnd : (g.shipPositions.map Prod.fst).Nodup)
    (hgood : PiecesGood g.shipPositions)
    (hdisj : PiecesDisjoint g.shipPositions) :
    (placeShip g ship size r).1.shipPositions.map Prod.fst =
      g.shipPositions.map Prod.fst ∧
    PiecesGood (placeShip g ship size r).1.shipPositions ∧
    PiecesDisjoint (placeShip g ship size r).1.shipPositions ∧
    (∀ sq ∈ (placeShip g ship size r).1.shipPositions,
      sq.1 ≠ ship → sq ∈ g.shipPositions) := by
  rcases htp : tryPlace size (occupied g) 100 r with ⟨o, r1⟩
  cases o with
  | none =>
    simp only [placeShip, htp]
    exact ⟨by trivial, hgood, hdisj, fun sq hsq _ => hsq⟩
  | some ps =>
    obtain ⟨⟨x, y, hshape⟩, hfree⟩ :=
      tryPlace_some_spec size (occupied g) (ships_size_le_ten hcat) 100 r ps r1 htp
    have hfree2 : ∀ sp ∈ g.shipPositions, ∀ p ∈ ps, p ∉ sp.2 := by
      intro sp hsp p hp
      exact occupied_false_not_mem (hfree p hp) sp hsp
    have hshape2 : ShipShape ps.toFinset size := by
      obtain h | h := hshape
      · exact ⟨x, y, Or.inl ⟨h.1, h.2.1, by rw [h.2.2]⟩⟩
      · exact ⟨x, y, Or.inr ⟨h.1, h.2.1, by rw [h.2.2]⟩⟩
    simp only [placeShip, htp]
    refine ⟨addPositions_map_fst _ _ _, ?_, ?_, ?_⟩
    · intro sq hsq
      obtain ⟨sp, hsp, heq⟩ := mem_addPositions hsq
      by_cases h : sp.1 = ship
      · right
        rw [hempty sp hsp h] at heq
        have hcat2 : (sp.1, size) ∈ ships := by rw [h]; exact hcat
        rw [heq, if_pos h, Finset.empty_union]
        exact ⟨size, hcat2, hshape2⟩
      · rw [heq]
        simp only [h, if_false]
        exact hgood sp hsp
    · exact pairwise_addPositions hdisj hfree2 hnd
    · intro sq hsq hne
      obtain ⟨sp, hsp, heq⟩ := mem_addPositions hsq
      by_cases h : sp.1 = ship
      · exfalso
        apply hne
        rw [heq]
        simp [h]
      · rw [heq]
        simp only [h, if_false]
        exact hsp

/-- The placement fold preserves the invariants for any still-to-place
suffix of the catalog whose ships are all unplaced. -/
lemma placeFold_inv :
    ∀ (todo : List (String × Nat)) (g : Game) (r : RS),
      (∀ s ∈ todo, s ∈ ships) →
      (todo.map Prod.fst).Nodup →
      (∀ s ∈ todo, ∀ sp ∈ g.shipPositions, sp.1 = s.1 → sp.2 = ∅) →
      (g.shipPositions.map Prod.fst).Nodup →
      PiecesGood g.shipPositions →
      PiecesDisjoint g.shipPositions →
      (todo.foldl (fun gr s => placeShip gr.1 s.1 s.2 gr.2) (g, r)).1.shipPositions.map
          Prod.fst = g.shipPositions.map Prod.fst ∧
      PiecesGood
        (todo.foldl (fun gr s => placeShip gr.1 s.1 s.2 gr.2) (g, r)).1.shipPositions ∧
      PiecesDisjoint
        (todo.foldl (fun gr s => placeShip gr.1 s.1 s.2 gr.2) (g, r)).1.shipPositions := by
  intro todo
  induction todo with
  | nil =>
    intro g r _ _ _ _ hgood hdisj
    exact ⟨rfl, hgood, hdisj⟩
  | cons s t ih =>
    intro g r hcat hndt hempty hnd hgood hdisj
    rw [List.foldl_cons]
    rcases hstep : placeShip g s.1 s.2 r with ⟨g1, r1⟩
    have hmem : (s.1, s.2) ∈ ships := hcat s (List.mem_cons_self s t)
    have H := placeShip_step g s.1 s.2 r hmem
      (fun sp hsp h => hempty s (List.mem_cons_self s t) sp hsp h) hnd hgood hdisj
    rw [hstep] at H
    rw [List.map_cons, List.nodup_cons] at hndt
    have hempty1 : ∀ s' ∈ t, ∀ sp ∈ g1.shipPositions, sp.1 = s'.1 → sp.2 = ∅ := by
      intro s' hs' sp hsp hname
      have hne : sp.1 ≠ s.1 := by
        rw [hname]
        intro hcontra
        exact hndt.1 (hcontra ▸ List.mem_map_of_mem Prod.fst hs')
      exact hempty s' (List.mem_cons_of_mem s hs') sp (H.2.2.2 sp hsp hne) hname
    have := ih g1 r1 (fun s' hs' => hcat s' (List.mem_cons_of_mem s hs')) hndt.2
      hempty1 (by rw [H.1]; exact hnd) H.2.1 H.2.2.1
    exact ⟨by rw [this.1, H.1], this.2.1, this.2.2⟩

/-- C7: whenever a run of `place_ships_randomly` on a fresh game leaves no
ship unplaced, the resulting entries are exactly the five catalog ships in
order, their coordinate sets are pairwise disjoint, and each ship's set is
a horizontal or vertical contiguous run of its declared catalog length —
hence has exactly that many distinct coordinates — lying within the board
bounds. -/
theorem c7_successful_placement_invariants (r : RS)
    (h : ∀ sp ∈ (placeShipsRandomly initGame r).1.shipPositions, sp.2 ≠ ∅) :
    (placeShipsRandomly initGame r).1.shipPositions.map Prod.fst = shipNames ∧
    PiecesDisjoint (placeShipsRandomly initGame r).1.shipPositions ∧
    ∀ sp ∈ (placeShipsRandomly initGame r).1.shipPositions,
      ∃ sz, (sp.1, sz) ∈ ships ∧ ShipShape sp.2 sz ∧ sp.2.card = sz ∧
        ∀ c ∈ sp.2, InBoundsC c := by
  have hgood0 : PiecesGood initGame.shipPositions := by
    intro sp hsp
    left
    fin_cases hsp <;> rfl
  have hdisj0 : PiecesDisjoint initGame.shipPositions := by
    simp [PiecesDisjoint, initGame, List.pairwise_cons]
  have H := placeFold_inv ships initGame r (fun s hs => hs) (by decide)
    (by intro s hs sp hsp _; fin_cases hsp <;> rfl) (by decide) hgood0 hdisj0
  rw [placeShipsRandomly] at h ⊢
  refine ⟨H.1, H.2.2, ?_⟩
  intro sp hsp
  rcases H.2.1 sp hsp with hempty | ⟨sz, hcat, hshape⟩
  · exact absurd hempty (h sp hsp)
  · exact ⟨sz, hcat, hshape, ShipShape_card hshape, ShipShape_inbounds hshape⟩

set_option maxRecDepth 4000 in
theorem c7_successful_placement_invariants_witness :
    (∀ sp ∈ (placeShipsRandomly initGame ⟨wStream, 0⟩).1.shipPositions, sp.2 ≠ ∅) ∧
    ((placeShipsRandomly initGame ⟨wStream, 0⟩).1.shipPositions.map Prod.fst = shipNames ∧
     PiecesDisjoint (placeShipsRandomly initGame ⟨wStream, 0⟩).1.shipPositions ∧
     ∀ sp ∈ (placeShipsRandomly initGame ⟨wStream, 0⟩).1.shipPositions,
       ∃ sz, (sp.1, sz) ∈ ships ∧ ShipShape sp.2 sz ∧ sp.2.card = sz ∧
         ∀ c ∈ sp.2, InBoundsC c) :=
  ⟨by decide, c7_successful_placement_invariants ⟨wStream, 0⟩ (by decide)⟩

/-! ### Claim C1: sinking and game-over discipline of `process_shot` -/

lemma csl_skip (shots : Finset Coord) (hitPos : Coord) (sunk : Finset String) :
    ∀ l : List (String × Finset Coord),
      (∀ sp ∈ l, ¬(hitPos ∈ sp.2 ∧ sp.1 ∉ sunk ∧ sp.2 ⊆ shots)) →
      checkSunkLoop shots hitPos sunk l = ("", sunk) := by
  intro l
  induction l with
  | nil => intro _; rfl
  | cons a t ih =>
    intro h
    obtain ⟨ship, positions⟩ := a
    have ha := h _ (List.mem_cons_self _ t)
    have ht := fun sp hsp => h sp (List.mem_cons_of_mem _ hsp)
    by_cases h1 : hitPos ∈ positions ∧ ship ∉ sunk
    · by_cases h2 : positions ⊆ shots
      · exact absurd ⟨h1.1, h1.2, h2⟩ ha
      · simp only [checkSunkLoop, if_pos h1, if_neg h2]
        exact ih ht
    · simp only [checkSunkLoop, if_neg h1]
      exact ih ht

lemma csl_found (shots : Finset Coord) (hitPos : Coord) (sunk : Finset String) :
    ∀ (l1 : List (String × Finset Coord)) (P : String × Finset Coord)
      (l2 : List (String × Finset Coord)),
      (∀ sp ∈ l1, ¬(hitPos ∈ sp.2 ∧ sp.1 ∉ sunk ∧ sp.2 ⊆ shots)) →
      hitPos ∈ P.2 → P.1 ∉ sunk → P.2 ⊆ shots →
      checkSunkLoop shots hitPos sunk (l1 ++ P :: l2) =
        ("Sunk " ++ P.1 ++ "!", insert P.1 sunk) := by
  intro l1
  induction l1 with
  | nil =>
    intro P l2 _ h1 h2 h3
    obtain ⟨ship, positions⟩ := P
    have hc : hitPos ∈ positions ∧ ship ∉ sunk := ⟨h1, h2⟩
    simp only [List.nil_append, checkSunkLoop, if_pos hc, if_pos h3]
  | cons a t ih =>
    intro P l2 hskip h1 h2 h3
    obtain ⟨ship, positions⟩ := a
    have ha := hskip _ (List.mem_cons_self _ t)
    have ht := fun sp hsp => hskip sp (List.mem_cons_of_mem _ hsp)
    by_cases c1 : hitPos ∈ positions ∧ ship ∉ sunk
    · by_cases c2 : positions ⊆ shots
      · exact absurd ⟨c1.1, c1.2, c2⟩ ha
      · simp only [List.cons_append, checkSunkLoop, if_pos c1, if_neg c2]
        exact ih P l2 ht h1 h2 h3
    · simp only [List.cons_append, checkSunkLoop, if_neg c1]
      exact ih P l2 ht h1 h2 h3

lemma processShot_fst_hit (g : Game) (move : String) (col row : Int)
    (hp : parseMove move = some (col, row)) (hb : InBoundsC (col, row))
    (hfresh : (col, row) ∉ g.opponentShots)
    (hhit : ∃ sp ∈ g.shipPositions, (col, row) ∈ sp.2) :
    (processShot g move).1 =
      (if (checkSunkLoop (insert (col, row) g.opponentShots) (col, row) g.sunkShips
            g.shipPositions).2.card = ships.length then "gameover"
       else if (checkSunkLoop (insert (col, row) g.opponentShots) (col, row) g.sunkShips
            g.shipPositions).1 ≠ "" then "hit\nsunk"
       else "hit") := by
  have hany : g.shipPositions.any (fun sp => decide ((col, row) ∈ sp.2)) = true := by
    rw [List.any_eq_true]
    obtain ⟨sp, hsp, hmem⟩ := hhit
    exact ⟨sp, hsp, by simpa using hmem⟩
  simp [processShot, hp, hb, hfresh, afterAdd, hany, sunkCheckStep, checkShipSunk]
  by_cases h1 : (checkSunkLoop (insert (col, row) g.opponentShots) (col, row) g.sunkShips
      g.shipPositions).2.card = ships.length
  · simp [h1]
  · by_cases h2 : (checkSunkLoop (insert (col, row) g.opponentShots) (col, row) g.sunkShips
        g.shipPositions).1 = "" <;> simp [h1, h2]

lemma sunkMsg_ne_empty (s : String) : ("Sunk " ++ s ++ "!") ≠ "" := by
  intro h
  have := congrArg String.data h
  simp [String.data_append] at this

/-- C1: in a well-formed fully-placed game, let the incoming move parse to
a coordinate of piece `P`.  Then: (a) if the shot is fresh and completes
`P` (all of `P`'s coordinates are now shot), `process_shot` returns
`"gameover"` when every other piece is already sunk and `"hit\nsunk"` when
some other piece is still afloat; (b) a fresh shot that leaves any piece
with an unshot coordinate never returns `"gameover"`; (c) once `P` is in
the sunk set, shooting any of its coordinates returns `"repeat"`, so a sink
is never re-reported. -/
theorem c1_sink_once_gameover_exactly_on_last
    (g : Game) (hWF : FleetPlaced g) (move : String) (col row : Int)
    (hp : parseMove move = some (col, row))
    (P : String × Finset Coord) (hP : P ∈ g.shipPositions)
    (hin : (col, row) ∈ P.2) :
    ((col, row) ∉ g.opponentShots →
      P.2 ⊆ insert (col, row) g.opponentShots →
      ((∀ sp ∈ g.shipPositions, sp.1 ≠ P.1 → sp.1 ∈ g.sunkShips) →
        (processShot g move).1 = "gameover") ∧
      ((∃ sp ∈ g.shipPositions, sp.1 ≠ P.1 ∧ sp.1 ∉ g.sunkShips) →
        (processShot g move).1 = "hit\nsunk")) ∧
    ((col, row) ∉ g.opponentShots →
      (∃ sp ∈ g.shipPositions, ∃ c ∈ sp.2, c ∉ insert (col, row) g.opponentShots) →
      (processShot g move).1 ≠ "gameover") ∧
    (P.1 ∈ g.sunkShips → (processShot g move).1 = "repeat") := by
  obtain ⟨hnames, hbnd, hD, hsunkSub, hsunkIff⟩ := hWF
  have hb : InBoundsC (col, row) := hbnd P hP _ hin
  have hnd : (g.shipPositions.map Prod.fst).Nodup := by rw [hnames]; decide
  have hlnd : g.shipPositions.Nodup := hnd.of_map
  have hcard5 : shipNames.toFinset.card = ships.length := by decide
  have hmemN : ∀ sp ∈ g.shipPositions, sp.1 ∈ shipNames.toFinset := by
    intro sp hsp
    rw [List.mem_toFinset, ← hnames]
    exact List.mem_map_of_mem Prod.fst hsp
  have hPn : P.1 ∈ shipNames.toFinset := hmemN P hP
  -- the sunk-check loop finds exactly P on a fresh completing shot
  have hfound : (col, row) ∉ g.opponentShots →
      P.2 ⊆ insert (col, row) g.opponentShots →
      checkSunkLoop (insert (col, row) g.opponentShots) (col, row) g.sunkShips
        g.shipPositions = ("Sunk " ++ P.1 ++ "!", insert P.1 g.sunkShips) := by
    intro hfresh hcomp
    have hPns : P.1 ∉ g.sunkShips := fun hs => hfresh ((hsunkIff P hP).mp hs hin)
    obtain ⟨l1, l2, hsplit⟩ := List.append_of_mem hP
    have hPl1 : P ∉ l1 := by
      rw [hsplit, List.nodup_append] at hlnd
      intro hmem
      exact hlnd.2.2 hmem (List.mem_cons_self P l2)
    have hskip : ∀ sp ∈ l1,
        ¬((col, row) ∈ sp.2 ∧ sp.1 ∉ g.sunkShips ∧
          sp.2 ⊆ insert (col, row) g.opponentShots) := by
      intro sp hsp hcontra
      have hspl : sp ∈ g.shipPositions := by
        rw [hsplit]; exact List.mem_append_left _ hsp
      have hne : sp ≠ P := fun he => hPl1 (he ▸ hsp)
      exact hD sp hspl P hP hne (col, row) hcontra.1 hin
    rw [hsplit]
    exact csl_found _ _ _ l1 P l2 hskip hin hPns hcomp
  -- a fresh completing shot with some other ship afloat yields "hit\nsunk"
  have hsunkCase : ∀ (hfresh : (col, row) ∉ g.opponentShots)
      (hcomp : P.2 ⊆ insert (col, row) g.opponentShots)
      (Q : String × Finset Coord), Q ∈ g.shipPositions → Q.1 ≠ P.1 →
      Q.1 ∉ g.sunkShips → (processShot g move).1 = "hit\nsunk" := by
    intro hfresh hcomp Q hQ hQne hQns
    have hsub1 : insert P.1 g.sunkShips ⊆ shipNames.toFinset :=
      Finset.insert_subset_iff.mpr ⟨hPn, hsunkSub⟩
    have hQni : Q.1 ∉ insert P.1 g.sunkShips := by
      rw [Finset.mem_insert]
      rintro (h | h)
      · exact hQne h
      · exact hQns h
    have hss : insert P.1 g.sunkShips ⊂ shipNames.toFinset :=
      Finset.ssubset_def.mpr ⟨hsub1, fun hsup => hQni (hsup (hmemN Q hQ))⟩
    have hlt := Finset.card_lt_card hss
    have hne5 : ¬((insert P.1 g.sunkShips).card = ships.length) := by omega
    rw [processShot_fst_hit g move col row hp hb hfresh ⟨P, hP, hin⟩,
      hfound hfresh hcomp]
    simp [hne5, sunkMsg_ne_empty]
  refine ⟨?_, ?_, ?_⟩
  · intro hfresh hcomp
    constructor
    · intro hothers
      have hsub1 : insert P.1 g.sunkShips ⊆ shipNames.toFinset :=
        Finset.insert_subset_iff.mpr ⟨hPn, hsunkSub⟩
      have hsub2 : shipNames.toFinset ⊆ insert P.1 g.sunkShips := by
        intro n hn
        have : n ∈ g.shipPositions.map Prod.fst := by
          rw [hnames]; exact List.mem_toFinset.mp hn
        obtain ⟨sp, hsp, rfl⟩ := List.mem_map.mp this
        by_cases hne : sp.1 = P.1
        · rw [hne]; exact Finset.mem_insert_self _ _
        · exact Finset.mem_insert_of_mem (hothers sp hsp hne)
      have heq : (insert P.1 g.sunkShips).card = ships.length := by
        rw [Finset.Subset.antisymm hsub1 hsub2]; exact hcard5
      rw [processShot_fst_hit g move col row hp hb hfresh ⟨P, hP, hin⟩,
        hfound hfresh hcomp]
      simp [heq]
    · intro ⟨Q, hQ, hQne, hQns⟩
      exact hsunkCase hfresh hcomp Q hQ hQne hQns
  · intro hfresh ⟨sp0, hsp0, c0, hc0, hc0n⟩
    by_cases hcomp : P.2 ⊆ insert (col, row) g.opponentShots
    · have hne : sp0 ≠ P := fun he => hc0n (hcomp (he ▸ hc0))
      have hname : sp0.1 ≠ P.1 :=
        fun he => hne (List.inj_on_of_nodup_map hnd hsp0 hP he)
      have hns : sp0.1 ∉ g.sunkShips := by
        intro hs
        exact hc0n (Finset.mem_insert_of_mem ((hsunkIff sp0 hsp0).mp hs hc0))
      rw [hsunkCase hfresh hcomp sp0 hsp0 hname hns]
      decide
    · have hPns : P.1 ∉ g.sunkShips := fun hs => hfresh ((hsunkIff P hP).mp hs hin)
      have hskipall : ∀ sp ∈ g.shipPositions,
          ¬((col, row) ∈ sp.2 ∧ sp.1 ∉ g.sunkShips ∧
            sp.2 ⊆ insert (col, row) g.opponentShots) := by
        intro sp hsp hcontra
        by_cases he : sp = P
        · exact hcomp (he ▸ hcontra.2.2)
        · exact hD sp hsp P hP he (col, row) hcontra.1 hin
      have hloop := csl_skip (insert (col, row) g.opponentShots) (col, row)
        g.sunkShips g.shipPositions hskipall
      have hss : g.sunkShips ⊂ shipNames.toFinset :=
        Finset.ssubset_def.mpr ⟨hsunkSub, fun hsup => hPns (hsup hPn)⟩
      have hlt := Finset.card_lt_card hss
      have hne5 : ¬(g.sunkShips.card = ships.length) := by omega
      rw [processShot_fst_hit g move col row hp hb hfresh ⟨P, hP, hin⟩, hloop]
      simp [hne5]
  · intro hsunk
    have hm : (col, row) ∈ g.opponentShots := (hsunkIff P hP).mp hsunk hin
    simp [processShot, hp, hb, hm]

theorem c1_sink_once_gameover_exactly_on_last_witness :
    FleetPlaced gAlmostWon ∧ parseMove "B4" = some (1, 4) ∧
    (processShot gAlmostWon "B4").1 = "gameover" :=
  ⟨by decide, by decide,
    ((c1_sink_once_gameover_exactly_on_last gAlmostWon (by decide) "B4" 1 4 (by decide)
        ("Destroyer", {((0 : Int), (4 : Int)), (1, 4)}) (by decide) (by decide)).1
      (by decide) (by decide)).1 (by decide)⟩

end Battleshipy
